import Mathlib

/-!
Verification of the helm-ui chart storage, reconstruction, and rendering
pipeline.  The Go backend (internal/service/helm.go, internal/api/handler.go)
and the TypeScript frontend (src/pages/Home.tsx) are shallowly embedded as
executable Lean functions; the external helm library (loader, chartutil,
releaseutil, the templating engine) is treated as an external collaborator:
the engine is a parameter, and the two library helpers the pipeline leans on
(Chart.yaml parsing, manifest splitting) are modelled from the spec.
-/

/-! ## String and path utilities -/

/-- Bool test for pat occurring as a contiguous infix of l
(semantics of Go strings.Contains on the char-list level). -/
def listHasInfix (pat : List Char) : List Char → Bool
  | [] => pat.isEmpty
  | c :: rest => pat.isPrefixOf (c :: rest) || listHasInfix pat rest

/-- Go strings.Contains s pat: pat occurs as substring of s. -/
def containsSubstr (s pat : String) : Bool :=
  listHasInfix pat.data s.data

/-- Fuel-driven splitter on a literal separator sequence.  With fuel at least
the length of the input it splits the list at every occurrence of sep,
scanning left to right; exhausted fuel (never reached on such calls) returns
the remainder as a single segment. -/
def splitSepAux (sep : List Char) : Nat → List Char → List (List Char)
  | 0, l => [l]
  | _ + 1, [] => [[]]
  | n + 1, c :: rest =>
    if sep.isPrefixOf (c :: rest) then
      [] :: splitSepAux sep n ((c :: rest).drop sep.length)
    else
      match splitSepAux sep n rest with
      | [] => [[c]]
      | x :: xs => (c :: x) :: xs

/-- Split a string at every occurrence of the single character c
(semantics shared by Go strings.Split and the JS String split method). -/
def splitChar (c : Char) (s : String) : List String :=
  (splitSepAux [c] s.data.length s.data).map fun l => (⟨l⟩ : String)

/-- The document separator used by the render pipeline. -/
def manifestSep : String := "\n---\n"

/-- Modelled from the spec: helm releaseutil.SplitManifests is external
library code, not part of this repository; spec section 4.5 describes the
split as cutting the combined output on the document separator line
"\n---\n" and discarding empty resulting segments. -/
def splitManifests (s : String) : List String :=
  ((splitSepAux manifestSep.data s.data.length s.data).map fun l => (⟨l⟩ : String)).filter
    fun t => t != ""

/-- Go path/filepath Join of an absolute (rooted) base with a relative path:
concatenate with a slash and lexically clean the result, resolving "." and
".." segments and collapsing empty segments.  Matches Go filepath.Clean on
rooted slash-separated paths (the temporary roots produced by os.MkdirTemp
are absolute). -/
def cleanJoinRooted (base rel : String) : String :=
  let segs := splitChar '/' (base ++ "/" ++ rel)
  let out := segs.foldl
    (fun acc s =>
      if s = "" ∨ s = "." then acc
      else if s = ".." then acc.dropLast
      else acc ++ [s])
    ([] : List String)
  "/" ++ String.intercalate "/" out

/-- p lies inside the directory root: it is root itself or has root/ as a
textual prefix. -/
def isUnderDir (root p : String) : Bool :=
  p == root || (root ++ "/").data.isPrefixOf p.data

/-- Go filepath.Ext: the suffix of the final path element beginning at its
final dot; empty when the final element has no dot. -/
def fileExt (s : String) : String :=
  let rev := s.data.reverse
  let pre := rev.takeWhile fun c => c != '.' && c != '/'
  match rev.drop pre.length with
  | '.' :: _ => ⟨'.' :: pre.reverse⟩
  | _ => ""

/-- Go filepath.Base: the last element of the path after trailing slashes
are removed; "." for the empty path, "/" for all-slash paths. -/
def fileBase (s : String) : String :=
  if s = "" then "."
  else
    let t := s.data.reverse.dropWhile fun c => c == '/'
    if t = [] then "/" else ⟨(t.takeWhile fun c => c != '/').reverse⟩

/-! ## Data model -/

/-- Parsed chart metadata (helm chart.Metadata restricted to the fields the
pipeline reads). -/
structure ChartMeta where
  name : String
  version : String
deriving DecidableEq

/-- A loaded chart: parsed metadata plus its default values payload (kept
opaque as raw text; the pipeline never inspects it). -/
structure Chart where
  metadata : ChartMeta
  values : String
deriving DecidableEq

/-- Error outcomes of the service layer, one constructor per distinct
failure site in helm.go: the wrapped loader failure ("failed to load
chart") raised when a stored archive is absent, and the wrapped engine
failure ("failed to render chart"). -/
inductive HelmError where
  | chartNotFound
  | renderFailed (msg : String)
deriving DecidableEq

/-- One entry of os.ReadDir output: a plain file name plus a directory
flag. -/
structure DirEntry where
  name : String
  isDir : Bool
deriving DecidableEq

/-- Extract the value of a top-level "field: value" line. -/
def yamlField (field content : String) : Option String :=
  (splitChar '\n' content).findSome? fun line =>
    if (field ++ ": ").data.isPrefixOf line.data then
      some (⟨line.data.drop (field.data.length + 2)⟩ : String)
    else none

/-- Modelled from the spec: helm loader.Load is external library code, not
part of this repository; spec section 4.2 describes loading as reading
Chart.yaml for name and version, failing when Chart.yaml is absent or
unparsable or when name or version is empty. -/
def parseChartYaml (content : String) : Option ChartMeta :=
  match yamlField "name" content, yamlField "version" content with
  | some n, some v => if n ≠ "" ∧ v ≠ "" then some ⟨n, v⟩ else none
  | _, _ => none

/-- Modelled from the spec: directory loading via helm loader.Load, over a
directory given as an association list of relative path and file content.
Failure is the wrapped "failed to load chart" error of helm.go. -/
def loadChartDir (files : List (String × String)) : Except String Chart :=
  match files.lookup "Chart.yaml" with
  | none => .error "failed to load chart"
  | some content =>
    match parseChartYaml content with
    | none => .error "failed to load chart"
    | some meta => .ok ⟨meta, ((files.lookup "values.yaml").getD "")⟩

/-! ## Service layer (internal/service/helm.go) -/

namespace HelmService

/-- The hardcoded scratch directory of NewHelmService. -/
def tempDir : String := "../temp"

/-- The hardcoded store directory of NewHelmService. -/
def chartsDir : String := "../charts"

/-- helm.go line 47: the packaged file name computed from the parsed
metadata of the loaded chart. -/
def packagedFileName (meta : ChartMeta) : String :=
  meta.name ++ "-" ++ meta.version ++ ".tgz"

/-- HelmService.PackageChart: load the chart directory, then produce the
packaged file at tempDir under the metadata-derived file name (the
chartutil.Save call writes exactly that file). -/
def PackageChart (files : List (String × String)) : Except String String :=
  match loadChartDir files with
  | .error e => .error e
  | .ok chart => .ok (tempDir ++ "/" ++ packagedFileName chart.metadata)

/-- HelmService.ListChartVersions over the directory listing of the store:
keep entries that are not directories, have extension ".tgz", and whose
base name equals the requested name; return their file names. -/
def ListChartVersions (entries : List DirEntry) (name : String) : List String :=
  (entries.filter fun f =>
    !f.isDir && (fileExt f.name == ".tgz") && (fileBase f.name == name)).map
    fun f => f.name

/-- HelmService.GetChartValues: the chart store is modelled as an
association list from stored file name to loaded chart (a missing key is a
missing or unreadable archive, on which loader.Load fails and helm.go
returns the wrapped "failed to load chart" error). -/
def GetChartValues (store : List (String × Chart)) (name version : String) :
    Except HelmError String :=
  match store.lookup (name ++ "-" ++ version ++ ".tgz") with
  | none => .error .chartNotFound
  | some chart => .ok chart.values

/-- helm.go line 196: the provenance marker text searched for in each
manifest segment. -/
def sourceMarker (chartName selectedFile : String) : String :=
  "# Source: " ++ (chartName ++ "/" ++ selectedFile)

/-- helm.go lines 193 to 201: the nested filtering loops, outer over the
selected files, inner over the split manifests, appending every manifest
containing the marker of the current selected file. -/
def filterManifests (chartName : String) (selectedFiles manifests : List String) :
    List String :=
  selectedFiles.foldl
    (fun acc selectedFile =>
      manifests.foldl
        (fun acc2 m =>
          if containsSubstr m (sourceMarker chartName selectedFile) then acc2 ++ [m]
          else acc2)
        acc)
    []

/-- helm.go lines 188 to 206: when selected files were given, split the
engine output, filter, and rejoin with the separator; otherwise return the
engine output verbatim. -/
def renderManifestResult (chartName : String) (selectedFiles : List String)
    (manifest : String) : String :=
  if 0 < selectedFiles.length then
    String.intercalate "\n---\n" (filterManifests chartName selectedFiles (splitManifests manifest))
  else manifest

/-- The external templating engine capability: chart, values payload,
release name, namespace to combined manifest text or a diagnostic. -/
abbrev Engine := Chart → String → String → String → Except String String

/-- HelmService.RenderChart: load the stored chart, invoke the engine once
(client-only dry run), and post-process its output; the second component
counts engine invocations. -/
def RenderChart (store : List (String × Chart)) (engine : Engine)
    (name version values releaseName ns : String) (selectedFiles : List String) :
    Except HelmError String × Nat :=
  match store.lookup (name ++ "-" ++ version ++ ".tgz") with
  | none => (.error .chartNotFound, 0)
  | some chart =>
    match engine chart values releaseName ns with
    | .error msg => (.error (.renderFailed msg), 1)
    | .ok manifest => (.ok (renderManifestResult chart.metadata.name selectedFiles manifest), 1)

end HelmService

/-! ## HTTP handlers (internal/api/handler.go) -/

namespace Handler

/-- handler.go RenderRequest: values payload, release name, namespace. -/
structure RenderRequest where
  values : String
  name : String
  nspace : String

/-- The JSON responses a handler emits, by HTTP status. -/
inductive Resp where
  | ok (body : String)
  | badRequest (msg : String)
  | serverError (msg : String)
deriving DecidableEq

/-- The error text of each service failure as surfaced by the handlers. -/
def helmErrorMessage : HelmError → String
  | .chartNotFound => "failed to load chart"
  | .renderFailed msg => "failed to render chart: " ++ msg

/-- Handler.RenderChart: default the namespace, reject an empty release
name with 400 before touching the service, otherwise delegate; the second
component counts engine invocations. -/
def RenderChart (store : List (String × Chart)) (engine : HelmService.Engine)
    (name version : String) (req : RenderRequest) : Resp × Nat :=
  let ns := if req.nspace = "" then "default" else req.nspace
  if req.name = "" then (.badRequest "Release name is required", 0)
  else
    match HelmService.RenderChart store engine name version req.values req.name ns [] with
    | (.error e, n) => (.serverError (helmErrorMessage e), n)
    | (.ok result, n) => (.ok result, n)

/-- Outcome of the directory-upload handler loop: a 400 rejection, or fall
through to packaging and storing. -/
inductive UploadDirOutcome where
  | badRequest (msg : String)
  | packaged
deriving DecidableEq

/-- handler.go lines 142 to 169: for each uploaded part, reject an empty
declared path, otherwise write the file at filepath.Join(tempDir,
relativePath); the first component collects every written target path. -/
def savePartsAux (tempRoot : String) :
    List String → List String → List String × UploadDirOutcome
  | [], writes => (writes, .packaged)
  | relativePath :: rest, writes =>
    if relativePath = "" then
      (writes, .badRequest "File path is missing in Content-Disposition header")
    else savePartsAux tempRoot rest (writes ++ [cleanJoinRooted tempRoot relativePath])

/-- Handler.UploadChartDir over the declared relative paths of the batch
(the filename parameters of the Content-Disposition headers): reject an
empty batch, then save every part under the request-scoped temporary root
and proceed to packaging. -/
def UploadChartDir (tempRoot : String) (declaredPaths : List String) :
    List String × UploadDirOutcome :=
  if declaredPaths.isEmpty then ([], .badRequest "No files uploaded")
  else savePartsAux tempRoot declaredPaths []

end Handler

/-! ## Frontend directory upload (frontend/src/pages/Home.tsx) -/

namespace Frontend

/-- Home.tsx handleDirUpload: strip the root directory name from a full
path when it is a proper prefix, keeping the rest of the structure. -/
def stripRoot (rootDir full : String) : String :=
  if (rootDir ++ "/").data.isPrefixOf full.data then
    (⟨full.data.drop (rootDir.data.length + 1)⟩ : String)
  else full

/-- The root directory name: the first slash-separated component of the
first declared path. -/
def rootOf : List String → String
  | [] => ""
  | p0 :: _ => (splitChar '/' p0).headD ""

/-- The stripped relative paths of the batch. -/
def strippedPaths (paths : List String) : List String :=
  paths.map (stripRoot (rootOf paths))

/-- Outcome of the frontend directory-upload flow: silent return on an
empty selection, a rejection message, or the API upload call with the
stripped file list. -/
inductive DirUploadOutcome where
  | noop
  | rejected (msg : String)
  | uploadCalled (fileList : List String)
deriving DecidableEq

/-- Home.tsx handleDirUpload: compute the stripped paths, require an entry
exactly equal to Chart.yaml, then require every member of the required
list (Chart.yaml, values.yaml), rejecting the whole batch before any API
call when either check fails. -/
def handleDirUpload (paths : List String) : DirUploadOutcome :=
  if paths.isEmpty then .noop
  else
    let fileList := strippedPaths paths
    if !(fileList.contains "Chart.yaml") then
      .rejected "Invalid chart directory: Chart.yaml not found in the root directory"
    else
      let missingFiles := ["Chart.yaml", "values.yaml"].filter fun f => !(fileList.contains f)
      if missingFiles.length > 0 then
        .rejected ("Missing required files: " ++ String.intercalate ", " missingFiles)
      else .uploadCalled fileList

end Frontend

/-! ## Splitter lemmas -/

/-- With any two sufficient fuels the splitter computes the same result. -/
theorem splitSepAux_fuel (sep : List Char) (hs : sep ≠ []) :
    ∀ (n m : Nat) (l : List Char), l.length ≤ n → l.length ≤ m →
      splitSepAux sep n l = splitSepAux sep m l := by
  intro n
  induction n with
  | zero =>
    intro m l hn _
    have hl : l = [] := List.length_eq_zero.mp (Nat.le_zero.mp hn)
    subst hl
    cases m <;> rfl
  | succ n ih =>
    intro m l hn hm
    have hsep : 0 < sep.length := List.length_pos.mpr hs
    cases l with
    | nil => cases m <;> rfl
    | cons c rest =>
      cases m with
      | zero => simp at hm
      | succ m =>
        simp only [List.length_cons] at hn hm
        cases hp : sep.isPrefixOf (c :: rest) with
        | true =>
          simp only [splitSepAux, hp, if_true]
          rw [ih m ((c :: rest).drop sep.length)
            (by simp only [List.length_drop, List.length_cons]; omega)
            (by simp only [List.length_drop, List.length_cons]; omega)]
        | false =>
          simp only [splitSepAux, hp, Bool.false_eq_true, if_false]
          rw [ih m rest (by omega) (by omega)]

/-- When the separator occurs nowhere in the input, the splitter returns
the whole input as the unique segment. -/
theorem splitSepAux_no_occ (sep : List Char) :
    ∀ (n : Nat) (l : List Char), l.length ≤ n →
      (∀ i < l.length, sep.isPrefixOf (l.drop i) = false) →
      splitSepAux sep n l = [l] := by
  intro n
  induction n with
  | zero =>
    intro l hn _
    have hl : l = [] := List.length_eq_zero.mp (Nat.le_zero.mp hn)
    subst hl
    rfl
  | succ n ih =>
    intro l hn hocc
    cases l with
    | nil => rfl
    | cons c rest =>
      have h0 : sep.isPrefixOf (c :: rest) = false := by
        have := hocc 0 (by simp)
        simpa using this
      simp only [splitSepAux, h0, Bool.false_eq_true, if_false]
      rw [ih rest (by simp only [List.length_cons] at hn; omega)
        (fun i hi => by
          have := hocc (i + 1) (by simp only [List.length_cons]; omega)
          simpa [List.drop_succ_cons] using this)]

/-- When the first separator occurrence is exactly at the end of a, the
splitter cuts off a and continues on b. -/
theorem splitSepAux_first_occ (sep : List Char) (hs : sep ≠ []) :
    ∀ (a : List Char) (n : Nat) (b : List Char),
      a.length + sep.length + b.length ≤ n →
      (∀ i < a.length, sep.isPrefixOf ((a ++ (sep ++ b)).drop i) = false) →
      splitSepAux sep n (a ++ (sep ++ b)) = a :: splitSepAux sep b.length b := by
  intro a
  induction a with
  | nil =>
    intro n b hn _
    have hsep : 0 < sep.length := List.length_pos.mpr hs
    cases n with
    | zero => simp only [List.length_nil, Nat.zero_add] at hn; omega
    | succ n =>
      obtain ⟨s0, srest, rfl⟩ : ∃ s0 srest, sep = s0 :: srest := by
        cases sep with
        | nil => exact absurd rfl hs
        | cons s0 srest => exact ⟨s0, srest, rfl⟩
      have hpre : (s0 :: srest).isPrefixOf ((s0 :: srest) ++ b) = true :=
        List.isPrefixOf_iff_prefix.mpr (List.prefix_append _ _)
      simp only [List.nil_append, List.cons_append] at hpre ⊢
      simp only [splitSepAux, hpre, if_true]
      have hdrop : (s0 :: (srest ++ b)).drop (s0 :: srest).length = b := by
        have h := List.drop_left (s0 :: srest) b
        simp only [List.cons_append] at h
        exact h
      rw [hdrop]
      rw [splitSepAux_fuel (s0 :: srest) hs n b.length b
        (by simp only [List.length_nil, List.length_cons] at hn; omega) le_rfl]
  | cons c a' ih =>
    intro n b hn hocc
    cases n with
    | zero => simp at hn
    | succ n =>
      have h0 : sep.isPrefixOf (c :: (a' ++ (sep ++ b))) = false := by
        have := hocc 0 (by simp)
        simpa using this
      simp only [List.cons_append]
      simp only [splitSepAux, h0, Bool.false_eq_true, if_false]
      rw [ih n b
        (by simp only [List.length_cons] at hn; omega)
        (fun i hi => by
          have := hocc (i + 1) (by simp only [List.length_cons]; omega)
          simpa [List.cons_append, List.drop_succ_cons] using this)]

/-- Claim C9: when the combined engine output consists of exactly two
nonempty documents joined by the separator, with no other separator
occurrence inside b and none starting inside a, splitting the output
yields exactly those two documents, in their original order. -/
theorem C9_split_two_documents (a b : String) (ha : a ≠ "") (hb : b ≠ "")
    (hA : ∀ i < a.data.length,
      manifestSep.data.isPrefixOf ((a.data ++ (manifestSep.data ++ b.data)).drop i) = false)
    (hB : ∀ i < b.data.length, manifestSep.data.isPrefixOf (b.data.drop i) = false) :
    splitManifests (a ++ manifestSep ++ b) = [a, b] := by
  have hs : manifestSep.data ≠ [] := by decide
  unfold splitManifests
  have hdata : (a ++ manifestSep ++ b).data = a.data ++ (manifestSep.data ++ b.data) := by
    rw [String.data_append, String.data_append, List.append_assoc]
  rw [hdata]
  rw [splitSepAux_first_occ manifestSep.data hs a.data _ b.data
    (by simp only [List.length_append]; omega) hA]
  rw [splitSepAux_no_occ manifestSep.data b.data.length b.data le_rfl hB]
  show ([a, b] : List String).filter (fun t => t != "") = [a, b]
  have ha2 : (a != "") = true := bne_iff_ne.mpr ha
  have hb2 : (b != "") = true := bne_iff_ne.mpr hb
  simp [List.filter, ha2, hb2]

/-- Witness for C9 at a concrete two-document output. -/
theorem C9_split_two_documents_witness :
    ("kind: A" : String) ≠ "" ∧ ("kind: B" : String) ≠ "" ∧
    splitManifests ("kind: A" ++ manifestSep ++ "kind: B") = ["kind: A", "kind: B"] :=
  ⟨by decide, by decide,
    C9_split_two_documents "kind: A" "kind: B" (by decide) (by decide) (by decide) (by decide)⟩

/-! ## Filter-loop lemmas and render-filter claims -/

/-- Appending-if folding equals appending the filtered list. -/
theorem foldl_append_if_filter (p : String → Bool) :
    ∀ (ms acc : List String),
      ms.foldl (fun a m => if p m then a ++ [m] else a) acc = acc ++ ms.filter p := by
  intro ms
  induction ms with
  | nil => intro acc; simp
  | cons m rest ih =>
    intro acc
    cases hp : p m with
    | false => simp [List.foldl_cons, hp, ih, List.filter_cons]
    | true => simp [List.foldl_cons, hp, ih, List.filter_cons]

/-- The nested filter loops of helm.go compute, selected file by selected
file, the sublist of manifests containing that marker. -/
theorem filterManifests_eq_flatMap (cn : String) (sel ms : List String) :
    HelmService.filterManifests cn sel ms =
      sel.flatMap fun sf =>
        ms.filter fun m => containsSubstr m (HelmService.sourceMarker cn sf) := by
  suffices h : ∀ acc : List String,
      sel.foldl
        (fun acc selectedFile =>
          ms.foldl
            (fun acc2 m =>
              if containsSubstr m (HelmService.sourceMarker cn selectedFile) then acc2 ++ [m]
              else acc2)
            acc)
        acc =
      acc ++ sel.flatMap fun sf =>
        ms.filter fun m => containsSubstr m (HelmService.sourceMarker cn sf) by
    have h0 := h []
    simpa [HelmService.filterManifests] using h0
  induction sel with
  | nil => intro acc; simp
  | cons sf rest ih =>
    intro acc
    simp only [List.foldl_cons, List.flatMap_cons]
    rw [foldl_append_if_filter, ih, List.append_assoc]

/-- The description the claim gives of the filtered result: each split
segment containing the marker of some selected path, kept once, rejoined
with the separator. -/
def claimedFilterResult (chartName : String) (selectedFiles : List String)
    (manifest : String) : String :=
  String.intercalate "\n---\n"
    ((splitManifests manifest).filter fun d =>
      selectedFiles.any fun sf => containsSubstr d (HelmService.sourceMarker chartName sf))

/-- Claim C5 counterexample: one segment carrying the markers of two
selected paths is emitted twice by the code, while the claim keeps each
matching segment exactly once. -/
theorem C5_counterexample :
    HelmService.renderManifestResult "demo" ["a.yaml", "b.yaml"]
        "# Source: demo/a.yaml\n# Source: demo/b.yaml\nkind: X" ≠
      claimedFilterResult "demo" ["a.yaml", "b.yaml"]
        "# Source: demo/a.yaml\n# Source: demo/b.yaml\nkind: X" := by decide

/-- Claim C5 as amended: with a nonempty selection the result is the raw
split segments collected per selected path, in selected-path order, each
segment kept once per selected path whose marker it contains, rejoined
with the original separator and with no kind extraction or
re-serialization applied. -/
theorem C5_amended_filtered_render (cn : String) (sel : List String) (manifest : String)
    (h : sel ≠ []) :
    HelmService.renderManifestResult cn sel manifest =
      String.intercalate "\n---\n"
        (sel.flatMap fun sf =>
          (splitManifests manifest).filter fun d =>
            containsSubstr d (HelmService.sourceMarker cn sf)) := by
  unfold HelmService.renderManifestResult
  rw [if_pos (by cases sel with | nil => exact absurd rfl h | cons x xs => simp)]
  rw [filterManifests_eq_flatMap]

/-- Witness for the amended C5 at a concrete selection. -/
theorem C5_amended_filtered_render_witness :
    (["templates/cm.yaml"] : List String) ≠ [] ∧
    HelmService.renderManifestResult "demo" ["templates/cm.yaml"]
        "# Source: demo/templates/cm.yaml\nkind: ConfigMap" =
      String.intercalate "\n---\n"
        ((["templates/cm.yaml"] : List String).flatMap fun sf =>
          (splitManifests "# Source: demo/templates/cm.yaml\nkind: ConfigMap").filter fun d =>
            containsSubstr d (HelmService.sourceMarker "demo" sf)) :=
  ⟨by decide,
    C5_amended_filtered_render "demo" ["templates/cm.yaml"]
      "# Source: demo/templates/cm.yaml\nkind: ConfigMap" (by decide)⟩

/-- Claim C6 counterexample: with an empty selection the code returns the
engine output verbatim; the second split document lacks any kind field yet
is not dropped, and no kind-keyed reshaping happens. -/
theorem C6_counterexample :
    HelmService.renderManifestResult "demo" [] "kind: ConfigMap\n---\nfoo: bar" =
        "kind: ConfigMap\n---\nfoo: bar" ∧
      splitManifests "kind: ConfigMap\n---\nfoo: bar" = ["kind: ConfigMap", "foo: bar"] ∧
      containsSubstr "foo: bar" "kind" = false := by decide

/-- Claim C6 as amended: with an empty (or absent) selection the render
result is the combined engine output returned verbatim; no splitting, no
kind extraction, and no dropping of kindless segments takes place. -/
theorem C6_amended_unfiltered_verbatim (cn manifest : String) :
    HelmService.renderManifestResult cn [] manifest = manifest := by
  simp [HelmService.renderManifestResult]

/-- Claim C10: the marker check is substring containment, so a selection
entry that is a proper prefix of a real template path keeps that document
although its source path is not selected, and a single document carrying
the markers of two selected paths is emitted once per matching path. -/
theorem C10_substring_containment_over_match :
    (HelmService.renderManifestResult "demo" ["templates/deploy"]
        "# Source: demo/templates/deployment.yaml\nkind: Deployment" =
      "# Source: demo/templates/deployment.yaml\nkind: Deployment") ∧
    ((["templates/deploy"] : List String).contains "templates/deployment.yaml" = false) ∧
    ((HelmService.filterManifests "demo" ["api.yaml", "web.yaml"]
        ["# Source: demo/api.yaml\n# Source: demo/web.yaml\nkind: Service"]).count
        "# Source: demo/api.yaml\n# Source: demo/web.yaml\nkind: Service" = 2) := by decide

/-! ## Upload, render-guard and store claims -/

/-- Claim C1: evaluation of the directory-upload handler at the failing
batch.  The declared path "../evil.txt" resolves outside the temporary
root, yet the handler writes the file there and proceeds to packaging;
no failure resembling PathTraversalError exists on this path. -/
theorem C1_path_traversal_escapes :
    Handler.UploadChartDir "/tmp/chart-123" ["../evil.txt"] =
        (["/tmp/evil.txt"], .packaged) ∧
      isUnderDir "/tmp/chart-123" "/tmp/evil.txt" = false := by decide

/-- Claim C3: a render request with an empty release name is answered with
the 400 rejection before the service runs, and the engine invocation count
on this path is zero. -/
theorem C3_empty_instance_name_rejected (store : List (String × Chart))
    (engine : HelmService.Engine) (name version : String) (req : Handler.RenderRequest)
    (h : req.name = "") :
    Handler.RenderChart store engine name version req =
      (.badRequest "Release name is required", 0) := by
  simp [Handler.RenderChart, h]

/-- Witness for C3 at a concrete empty-name request. -/
theorem C3_empty_instance_name_rejected_witness :
    (Handler.RenderRequest.mk "replicas: 2" "" "prod").name = "" ∧
    Handler.RenderChart [] (fun _ _ _ _ => .ok "kind: A") "demo" "1.0.0"
        (Handler.RenderRequest.mk "replicas: 2" "" "prod") =
      (.badRequest "Release name is required", 0) :=
  ⟨rfl,
    C3_empty_instance_name_rejected [] (fun _ _ _ _ => .ok "kind: A") "demo" "1.0.0"
      (Handler.RenderRequest.mk "replicas: 2" "" "prod") rfl⟩

/-- Claim C4: when the store holds no archive named
name-version.tgz, both values retrieval and rendering fail with the
loader-missing-chart error, and the engine is never reached. -/
theorem C4_missing_archive_not_found (store : List (String × Chart))
    (engine : HelmService.Engine) (name version values releaseName ns : String)
    (sel : List String)
    (h : store.lookup (name ++ "-" ++ version ++ ".tgz") = none) :
    HelmService.GetChartValues store name version = .error .chartNotFound ∧
    HelmService.RenderChart store engine name version values releaseName ns sel =
      (.error .chartNotFound, 0) := by
  constructor
  · simp [HelmService.GetChartValues, h]
  · simp [HelmService.RenderChart, h]

/-- Witness for C4 on the empty store. -/
theorem C4_missing_archive_not_found_witness :
    ([] : List (String × Chart)).lookup ("demo" ++ "-" ++ "9.9.9" ++ ".tgz") = none ∧
    HelmService.GetChartValues [] "demo" "9.9.9" = .error .chartNotFound ∧
    HelmService.RenderChart [] (fun _ _ _ _ => .ok "kind: A") "demo" "9.9.9" "" "r" "default" [] =
      (.error .chartNotFound, 0) := by
  refine ⟨rfl, ?_⟩
  have h := C4_missing_archive_not_found [] (fun _ _ _ _ => .ok "kind: A")
    "demo" "9.9.9" "" "r" "default" [] rfl
  exact ⟨h.1, h.2⟩

/-- Claim C2: a nonempty batch whose stripped paths miss Chart.yaml or
miss values.yaml is rejected by the directory-upload flow before the
upload call, hence before any packaging or storing. -/
theorem C2_required_files_rejected (paths : List String) (hne : paths ≠ [])
    (h : (Frontend.strippedPaths paths).contains "Chart.yaml" = false ∨
         (Frontend.strippedPaths paths).contains "values.yaml" = false) :
    ∃ msg, Frontend.handleDirUpload paths = .rejected msg := by
  have hne2 : paths.isEmpty = false := by
    cases paths with
    | nil => exact absurd rfl hne
    | cons p rest => rfl
  cases hCY : (Frontend.strippedPaths paths).contains "Chart.yaml" with
  | false =>
    have hCY2 : "Chart.yaml" ∉ Frontend.strippedPaths paths := by simpa using hCY
    refine ⟨"Invalid chart directory: Chart.yaml not found in the root directory", ?_⟩
    simp [Frontend.handleDirUpload, hne2, hCY2]
  | true =>
    have hCY2 : "Chart.yaml" ∈ Frontend.strippedPaths paths := by simpa using hCY
    have hv : (Frontend.strippedPaths paths).contains "values.yaml" = false := by
      rcases h with h | h
      · rw [hCY] at h; exact absurd h (by simp)
      · exact h
    have hv2 : "values.yaml" ∉ Frontend.strippedPaths paths := by simpa using hv
    refine ⟨"Missing required files: " ++ String.intercalate ", " ["values.yaml"], ?_⟩
    simp [Frontend.handleDirUpload, hne2, hCY2, hv2, List.filter]

/-- Witness for C2: a batch declaring only mychart/Chart.yaml. -/
theorem C2_required_files_rejected_witness :
    (["mychart/Chart.yaml"] : List String) ≠ [] ∧
    (Frontend.strippedPaths ["mychart/Chart.yaml"]).contains "values.yaml" = false ∧
    ∃ msg, Frontend.handleDirUpload ["mychart/Chart.yaml"] = .rejected msg :=
  ⟨by decide, by decide,
    C2_required_files_rejected ["mychart/Chart.yaml"] (by decide) (Or.inr (by decide))⟩

/-- On a nonempty name with no slash, the Go Base function is the
identity. -/
theorem fileBase_of_plain (s : String) (h1 : s ≠ "") (h2 : '/' ∉ s.data) :
    fileBase s = s := by
  have hd : s.data ≠ [] := by
    intro hnil
    apply h1
    cases s with
    | mk data =>
      simp only at hnil
      rw [hnil]
  have hrev : s.data.reverse ≠ [] := by simpa using hd
  have hdw : s.data.reverse.dropWhile (fun c => c == '/') = s.data.reverse := by
    cases hc : s.data.reverse with
    | nil => simp
    | cons c t =>
      rw [List.dropWhile_cons]
      have hcmem : c ∈ s.data := by
        have hcr : c ∈ s.data.reverse := by rw [hc]; exact List.mem_cons_self c t
        simpa using hcr
      have hcne : (c == '/') = false := beq_eq_false_iff_ne.mpr (fun he => h2 (he ▸ hcmem))
      simp [hcne]
  have htw : s.data.reverse.takeWhile (fun c => c != '/') = s.data.reverse := by
    apply List.takeWhile_eq_self_iff.mpr
    intro x hx
    have hxmem : x ∈ s.data := by simpa using hx
    exact bne_iff_ne.mpr (fun he => h2 (he ▸ hxmem))
  show (if s = "" then "."
    else
      let t := s.data.reverse.dropWhile fun c => c == '/'
      if t = [] then "/" else (⟨(t.takeWhile fun c => c != '/').reverse⟩ : String)) = s
  rw [if_neg h1]
  show (if s.data.reverse.dropWhile (fun c => c == '/') = [] then ("/" : String)
    else ⟨((s.data.reverse.dropWhile fun c => c == '/').takeWhile fun c => c != '/').reverse⟩) = s
  rw [hdw, if_neg hrev, htw]
  rw [List.reverse_reverse]

/-- Claim C7: over a directory listing of plain entry names,
ListChartVersions returns exactly the non-directory ".tgz" entries whose
whole file name equals the requested name. -/
theorem C7_list_versions_exact_full_name (entries : List DirEntry) (name : String)
    (h : ∀ e ∈ entries, e.name ≠ "" ∧ '/' ∉ e.name.data) :
    HelmService.ListChartVersions entries name =
      (entries.filter fun f =>
        !f.isDir && (fileExt f.name == ".tgz") && (f.name == name)).map fun f => f.name := by
  unfold HelmService.ListChartVersions
  congr 1
  apply List.filter_congr
  intro e he
  obtain ⟨h1, h2⟩ := h e he
  rw [fileBase_of_plain e.name h1 h2]

/-- Witness for C7 on a store with one exact match, one differing name,
and one directory. -/
theorem C7_list_versions_exact_full_name_witness :
    (∀ e ∈ [DirEntry.mk "demo-1.0.0.tgz" false, DirEntry.mk "demo" false,
        DirEntry.mk "backup.tgz" true], e.name ≠ "" ∧ '/' ∉ e.name.data) ∧
    HelmService.ListChartVersions
        [DirEntry.mk "demo-1.0.0.tgz" false, DirEntry.mk "demo" false,
          DirEntry.mk "backup.tgz" true] "demo-1.0.0.tgz" =
      ([DirEntry.mk "demo-1.0.0.tgz" false, DirEntry.mk "demo" false,
          DirEntry.mk "backup.tgz" true].filter fun f =>
        !f.isDir && (fileExt f.name == ".tgz") && (f.name == "demo-1.0.0.tgz")).map
        fun f => f.name :=
  ⟨by decide,
    C7_list_versions_exact_full_name
      [DirEntry.mk "demo-1.0.0.tgz" false, DirEntry.mk "demo" false,
        DirEntry.mk "backup.tgz" true] "demo-1.0.0.tgz" (by decide)⟩

/-- Claim C8: packaging a directory whose Chart.yaml parses to some
metadata produces the file name assembled from that parsed name and
version with the ".tgz" suffix, placed in the scratch directory. -/
theorem C8_package_filename_from_metadata (files : List (String × String))
    (chartYaml : String) (meta : ChartMeta)
    (hfile : files.lookup "Chart.yaml" = some chartYaml)
    (hparse : parseChartYaml chartYaml = some meta) :
    HelmService.PackageChart files =
      .ok (HelmService.tempDir ++ "/" ++ (meta.name ++ "-" ++ meta.version ++ ".tgz")) := by
  simp [HelmService.PackageChart, loadChartDir, hfile, hparse, HelmService.packagedFileName]

/-- Witness for C8: metadata demo 1.2.3 yields exactly
../temp/demo-1.2.3.tgz. -/
theorem C8_package_filename_from_metadata_witness :
    ([("Chart.yaml", "name: demo\nversion: 1.2.3"), ("values.yaml", "replicas: 1")]
        : List (String × String)).lookup "Chart.yaml" = some "name: demo\nversion: 1.2.3" ∧
    parseChartYaml "name: demo\nversion: 1.2.3" = some (ChartMeta.mk "demo" "1.2.3") ∧
    HelmService.PackageChart
        [("Chart.yaml", "name: demo\nversion: 1.2.3"), ("values.yaml", "replicas: 1")] =
      .ok "../temp/demo-1.2.3.tgz" := by
  refine ⟨rfl, by decide, ?_⟩
  have h := C8_package_filename_from_metadata
    [("Chart.yaml", "name: demo\nversion: 1.2.3"), ("values.yaml", "replicas: 1")]
    "name: demo\nversion: 1.2.3" (ChartMeta.mk "demo" "1.2.3") rfl (by decide)
  rw [h]
  exact congrArg Except.ok (by decide)
